import Mathlib

/-!
Verification development for the enrichment-and-indexing pipeline of the
bm25_mistral repository (python_backend_services).  The Python source is
shallowly embedded: SQLite rows become a record structure, the table becomes a
list of rows, stateful methods become explicit state-passing functions, and
code that can raise propagates an explicit error value.  Machine-level details
that the claims do not touch (timestamps, logging, sleeps) are omitted; every
branch that decides a claim is translated from the source.
-/

set_option maxRecDepth 4096

namespace BM25

/-- A row of the `enriched_documents` SQLite table (see
`data_ingestion/db_setup.py`).  TEXT columns are `Option String`
(NULL = `none`); `status_enrichment` is the raw status string.
`created_at` and `updated_at` (wall-clock timestamps) are omitted. -/
structure DocRecord where
  document_id : String
  file_name : Option String
  content_path : Option String
  document_title_original : Option String
  summary_original : Option String
  first_lines_original : Option String
  document_category_original : Option String
  document_type_original : Option String
  legal_action_original : Option String
  legal_domain_original : Option String
  sub_areas_of_law_original : Option String
  jurisprudence_court_original : Option String
  version_original : Option String
  full_text_content : Option String
  document_title_llm : Option String
  summary1_llm : Option String
  summary2_llm : Option String
  legal_domain_llm : Option String
  sub_areas_of_law_llm : Option String
  document_specific_terms : Option String
  status_enrichment : String
  llm_error_message : Option String
  deriving DecidableEq, Repr

/-- The `enriched_documents` table: rows in insertion (`created_at`) order. -/
abbrev Store := List DocRecord

/-- `SELECT ... WHERE document_id = ?` returning the first matching row. -/
def lookupDoc (store : Store) (id : String) : Option DocRecord :=
  List.find? (fun r => r.document_id == id) store

/-- `UPDATE ... WHERE document_id = ?`: rewrite every row with the given id. -/
def updateDoc (store : Store) (id : String) (f : DocRecord → DocRecord) : Store :=
  List.map (fun r => if r.document_id == id then f r else r) store

/-- One parsed catalog row as produced by `DocumentParserGS.parse_documents`
(all sheet cells already converted to stripped strings by the parser). -/
structure ParsedDoc where
  document_id : String
  file_name : String
  document_title : String
  legal_domain : String
  sub_areas_of_law : String
  summary : String
  first_lines : String
  document_category_original : String
  document_type_original : String
  legal_action_original : String
  jurisprudence_court_original : String
  version_original : String
  content_path : Option String
  full_text_content : Option String
  deriving DecidableEq, Repr

/-- Python `str.strip()`: remove leading and trailing whitespace
(char-list implementation, so that the kernel can evaluate it). -/
def pyStrip (s : String) : String :=
  String.mk (((s.toList.dropWhile Char.isWhitespace).reverse.dropWhile
    Char.isWhitespace).reverse)

/-- Python `str.lower()` (ASCII case mapping; characters outside the ASCII
letters are unaffected, as for the Portuguese accented letters used here). -/
def pyLower (s : String) : String :=
  String.mk (s.toList.map Char.toLower)

/-- Worker for `pySplitChar`. -/
def splitOnCharAux (c : Char) : List Char → List Char → List String
  | [], acc => [String.mk acc.reverse]
  | x :: rest, acc =>
    if x = c then String.mk acc.reverse :: splitOnCharAux c rest []
    else splitOnCharAux c rest (x :: acc)

/-- Python `str.split(sep)` for a one-character separator. -/
def pySplitChar (s : String) (c : Char) : List String :=
  splitOnCharAux c s.toList []

/-- Python slice `s[:n]` (char-list implementation, so that the kernel can
evaluate it). -/
def pyTake (s : String) (n : Nat) : String :=
  String.mk (s.toList.take n)

/-- Hexadecimal digit (uppercase-free, mirroring Python `json` output). -/
def hexDigit (n : Nat) : Char :=
  if n < 10 then Char.ofNat (48 + n) else Char.ofNat (87 + n)

/-- Four-digit hex rendering used by `\uXXXX` escapes. -/
def hex4 (n : Nat) : String :=
  String.mk [hexDigit (n / 4096 % 16), hexDigit (n / 256 % 16),
             hexDigit (n / 16 % 16), hexDigit (n % 16)]

/-- Escape of one character inside a JSON string literal, following
`json.dumps` with its default `ensure_ascii=True`. -/
def jsonEscapeChar (c : Char) : String :=
  if c = Char.ofNat 34 then "\\\""
  else if c = Char.ofNat 92 then "\\\\"
  else if c = Char.ofNat 10 then "\\n"
  else if c = Char.ofNat 13 then "\\r"
  else if c = Char.ofNat 9 then "\\t"
  else if c = Char.ofNat 8 then "\\b"
  else if c = Char.ofNat 12 then "\\f"
  else if c.toNat < 32 then "\\u" ++ hex4 c.toNat
  else if c.toNat < 127 then String.singleton c
  else if c.toNat < 65536 then "\\u" ++ hex4 c.toNat
  else
    let v := c.toNat - 65536
    "\\u" ++ hex4 (55296 + v / 1024) ++ "\\u" ++ hex4 (56320 + v % 1024)

/-- `json.dumps` of a single string. -/
def jsonDumpStr (s : String) : String :=
  "\"" ++ String.join (s.toList.map jsonEscapeChar) ++ "\""

/-- `json.dumps` of a list of strings (default separator `", "`). -/
def jsonDumpStrList (l : List String) : String :=
  "[" ++ String.intercalate ", " (l.map jsonDumpStr) ++ "]"

/-- The `db_doc` dictionary built for one parsed row inside
`MetadataEnricher._insert_initial_documents_from_parser` (lines 251-276),
completed with the schema defaults (`NULL`) for the columns the INSERT
statement does not mention. -/
def dbDocOf (doc : ParsedDoc) : DocRecord :=
  let sub_areas_json :=
    if pyStrip doc.sub_areas_of_law ≠ "" then
      jsonDumpStrList
        (((pySplitChar doc.sub_areas_of_law (Char.ofNat 59)).map pyStrip).filter
          (fun a => a ≠ ""))
    else
      jsonDumpStrList []
  { document_id := doc.document_id
    file_name := some doc.file_name
    content_path := doc.content_path
    document_title_original := some doc.document_title
    summary_original := some doc.summary
    first_lines_original := some doc.first_lines
    document_category_original := some doc.document_category_original
    document_type_original := some doc.document_type_original
    legal_action_original := some doc.legal_action_original
    legal_domain_original := some doc.legal_domain
    sub_areas_of_law_original := some sub_areas_json
    jurisprudence_court_original := some doc.jurisprudence_court_original
    version_original := some doc.version_original
    full_text_content := doc.full_text_content
    document_title_llm := none
    summary1_llm := none
    summary2_llm := none
    legal_domain_llm := none
    sub_areas_of_law_llm := none
    document_specific_terms := none
    status_enrichment := "pending"
    llm_error_message := none }

/-- A Python exception escaping the embedded code. -/
inductive PyErr where
  | nameError (name : String)
  deriving DecidableEq, Repr

/-- The update applied by the `should_update_and_set_pending` branch
(lines 306-320): every `db_doc` field except `document_id` and
`status_enrichment` is overwritten, then `status_enrichment` is set to
`pending` and `llm_error_message` cleared.  Columns absent from `db_doc`
(the `*_llm` fields) keep their stored values. -/
def overwriteFromCatalog (existing : DocRecord) (dbd : DocRecord) : DocRecord :=
  { dbd with
    document_id := existing.document_id
    document_title_llm := existing.document_title_llm
    summary1_llm := existing.summary1_llm
    summary2_llm := existing.summary2_llm
    legal_domain_llm := existing.legal_domain_llm
    sub_areas_of_law_llm := existing.sub_areas_of_law_llm
    document_specific_terms := existing.document_specific_terms
    status_enrichment := "pending"
    llm_error_message := none }

/-- Loop body of `MetadataEnricher._insert_initial_documents_from_parser`
(lines 251-333) for a single parsed row.  Branching mirrors the source:
forced ids are reset to `pending`; an existing row whose status is
`error_enrichment` makes the code evaluate the name `force_reprocess_errors`,
which is unbound in that scope (the global that exists is
`force_reprocess_errors_flag`), so a `NameError` is raised; other statuses
outside `enriched`/`processing_llm` are overwritten and reset; `enriched`
and `processing_llm` rows are skipped; unseen ids are inserted. -/
def upsertParsedDoc (forceReprocessIds : List String) (store : Store)
    (doc : ParsedDoc) : Except PyErr Store :=
  let dbd := dbDocOf doc
  match lookupDoc store doc.document_id with
  | some existing =>
    if doc.document_id ∈ forceReprocessIds then
      .ok (updateDoc store doc.document_id (fun r => overwriteFromCatalog r dbd))
    else if existing.status_enrichment = "error_enrichment" then
      .error (.nameError "force_reprocess_errors")
    else if existing.status_enrichment ∉ (["enriched", "processing_llm"] : List String) then
      .ok (updateDoc store doc.document_id (fun r => overwriteFromCatalog r dbd))
    else
      .ok store
  | none => .ok (store ++ [dbd])

/-- `MetadataEnricher._insert_initial_documents_from_parser`: fold the loop
body over the parsed rows.  `conn.commit()` runs only after the loop, so an
escaping `NameError` discards every change of the pass (the connection is
closed without commit); the error value therefore carries no partial store. -/
def insertInitialDocumentsFromParser (forceReprocessIds : List String)
    (parsedDocs : List ParsedDoc) (store : Store) : Except PyErr Store :=
  match parsedDocs with
  | [] => .ok store
  | doc :: rest =>
    match upsertParsedDoc forceReprocessIds store doc with
    | .error e => .error e
    | .ok store1 => insertInitialDocumentsFromParser forceReprocessIds rest store1

/-- One entry of `GlossaryService.glossary_data`
(`app/services/glossary_service.py`): the normalized dictionary key together
with the stored `termo_juridico` column value.  The remaining detail columns
play no role in the claims and are not modelled. -/
structure GlossaryEntry where
  key : String
  termoJuridico : String
  deriving DecidableEq, Repr

/-- The glossary: `glossary_data` entries, in some iteration order of
`normalized_terms_set`. -/
abbrev Glossary := List GlossaryEntry

/-- `GlossaryService._normalize_term`: strip then lowercase. -/
def normalizeTerm (term : String) : String :=
  pyLower (pyStrip term)

/-- Well-formedness of a loaded glossary: dictionary keys are distinct and
each key is the normalization of its stored term (these hold for every
glossary produced by `GlossaryService._load_glossary`). -/
def GlossaryWF (g : Glossary) : Prop :=
  (g.map GlossaryEntry.key).Nodup ∧ ∀ e ∈ g, normalizeTerm e.termoJuridico = e.key

/-- Python regex `\w` word character, restricted to the ASCII range
(Python matches further unicode word characters; no claim depends on the
exact alphabet). -/
def wordChar (c : Char) : Bool :=
  c.isAlpha || c.isDigit || c = Char.ofNat 95

/-- Whether the character at index `k` of `t` is a word character
(out of range counts as non-word, as at the ends of a regex subject). -/
def isWordAt (t : List Char) (k : Nat) : Bool :=
  match t[k]? with
  | some c => wordChar c
  | none => false

/-- Regex `\b` at position `k` of `t`: exactly one side is a word character. -/
def wordBoundaryAt (t : List Char) (k : Nat) : Bool :=
  (if k = 0 then false else isWordAt t (k - 1)) != isWordAt t k

/-- `re.search((?i)\b<term>\b, text)` for a literal (escaped) term:
case-insensitive whole-word containment. -/
def containsWordCI (text term : String) : Bool :=
  let t := text.toList.map Char.toLower
  let p := term.toList.map Char.toLower
  (List.range (t.length + 1)).any (fun i =>
    ((t.drop i).take p.length == p) && wordBoundaryAt t i && wordBoundaryAt t (i + p.length))

/-- Accumulating loop of `GlossaryService.find_terms_in_text`
(lines 148-163): walk the term set, skip terms already found, record a term
when the word-boundary search matches. -/
def findTermsLoop (text : String) : Glossary → List String → List GlossaryEntry →
    List GlossaryEntry
  | [], _, acc => acc
  | e :: rest, seen, acc =>
    if e.key ∈ seen then
      findTermsLoop text rest seen acc
    else if containsWordCI text e.key then
      findTermsLoop text rest (e.key :: seen) (acc ++ [e])
    else
      findTermsLoop text rest seen acc

/-- `GlossaryService.find_terms_in_text` (lines 125-165), up to the final
projection: the matched glossary entries in iteration order.  Empty text or
an empty term set short-circuits to `[]`. -/
def findTermsInText (g : Glossary) (text : String) : List GlossaryEntry :=
  if text = "" ∨ g = [] then [] else findTermsLoop text g [] []

/-- `find_terms_in_text(text, include_details=False)`: the
`termo_juridico` value of each matched entry. -/
def findTermsOnly (g : Glossary) (text : String) : List String :=
  (findTermsInText g text).map GlossaryEntry.termoJuridico

/-- The two summary kinds accepted by `MetadataEnricher._build_summary_prompt`. -/
inductive SummaryType where
  | technical
  | nonTechnical
  deriving DecidableEq, Repr

/-- Instruction text selected by `_build_summary_prompt`. -/
def summaryInstruction : SummaryType → String
  | .technical =>
    "Você é um especialista jurídico. Analise o seguinte texto de uma petição e gere um resumo técnico conciso " ++
    "que capture os principais pontos jurídicos, argumentos e o pedido principal. " ++
    "O resumo deve ser objetivo e usar terminologia jurídica apropriada. Máximo de 3-4 frases."
  | .nonTechnical =>
    "Você é um comunicador habilidoso. Analise o seguinte texto de uma petição e gere um resumo conciso " ++
    "em linguagem simples, clara e acessível para um público leigo (não técnico em direito). " ++
    "Evite jargões jurídicos complexos. Explique o assunto principal e o que a petição busca. Máximo de 2-3 frases."

/-- `MetadataEnricher._build_summary_prompt` (lines 345-365): empty or
whitespace-only text yields the empty prompt; otherwise the instruction is
combined with the text truncated to 15000 characters. -/
def buildSummaryPrompt (fullText : String) (ty : SummaryType) : String :=
  if fullText = "" ∨ pyStrip fullText = "" then ""
  else
    summaryInstruction ty ++ "\n\nTEXTO DA PETIÇÃO:\n\"\"\"\n" ++
      pyTake fullText 15000 ++ " \n\"\"\"\n\nRESUMO SOLICITADO:"

/-- Outcome of one `LLMService.generate_text` call: `ret o` is a normal
return (`o = none` when `_call_ollama_api_sync` swallowed an HTTP/JSON
failure and returned `None`, or when the response lacked a `response`
field); `exn msg` is a raised exception (reachable only through unusual
response payloads, e.g. a non-string `response` field). -/
inductive LLMResult where
  | ret (o : Option String)
  | exn (msg : String)
  deriving DecidableEq, Repr

/-- The generation service as an oracle from prompt to outcome. -/
abbrev LLMOracle := String → LLMResult

/-- Observable pipeline events: a committed status write, a generation-service
call, and an index upsert. -/
inductive Event where
  | statusWrite (id status : String)
  | llmCall (id prompt : String)
  | esIndex (id : String)
  deriving DecidableEq, Repr

/-- Default error message of the missing-content branch of
`MetadataEnricher.enrich_batch` (line 388). -/
def missingContentMsg : String :=
  "Conteúdo não encontrado no DB para enrich_batch"

/-- Loop body of `MetadataEnricher.enrich_batch` (lines 376-438) for one
document id.  The shape mirrors the source: a row with falsy
`full_text_content` is moved straight to `error_enrichment` with a
`COALESCE`d message and no generation call; otherwise the row is first
committed as `processing_llm` with its error cleared, the two generation
calls are issued (each skipped when its prompt is empty), a raised
exception moves the row to `error_enrichment` with the truncated message
and stops this record, and success writes both summaries, the glossary
terms and `enriched`.  An id without a row leaves the store unchanged
(the SQL UPDATEs match no row). -/
def enrichOne (g : Glossary) (llm : LLMOracle) (store : Store) (docId : String) :
    Store × List Event :=
  match lookupDoc store docId with
  | none => (store, [])
  | some rec =>
    let content := rec.full_text_content.getD ""
    if content = "" then
      let newMsg := rec.llm_error_message.getD missingContentMsg
      (updateDoc store docId (fun r =>
          { r with status_enrichment := "error_enrichment", llm_error_message := some newMsg }),
       [.statusWrite docId "error_enrichment"])
    else
      let store1 := updateDoc store docId (fun r =>
        { r with status_enrichment := "processing_llm", llm_error_message := none })
      let evs1 : List Event := [.statusWrite docId "processing_llm"]
      let prompt1 := buildSummaryPrompt content .technical
      let call1 : Option LLMResult × List Event :=
        if prompt1 ≠ "" then (some (llm prompt1), [.llmCall docId prompt1]) else (none, [])
      match call1 with
      | (some (.exn e), evsC1) =>
        (updateDoc store1 docId (fun r =>
            { r with status_enrichment := "error_enrichment",
                     llm_error_message := some ("Erro LLM: " ++ pyTake e 450) }),
         evs1 ++ evsC1 ++ [.statusWrite docId "error_enrichment"])
      | (r1, evsC1) =>
        let summary1 : Option String := match r1 with
          | some (.ret o) => o
          | _ => none
        let prompt2 := buildSummaryPrompt content .nonTechnical
        let call2 : Option LLMResult × List Event :=
          if prompt2 ≠ "" then (some (llm prompt2), [.llmCall docId prompt2]) else (none, [])
        match call2 with
        | (some (.exn e), evsC2) =>
          (updateDoc store1 docId (fun r =>
              { r with status_enrichment := "error_enrichment",
                       llm_error_message := some ("Erro LLM: " ++ pyTake e 450) }),
           evs1 ++ evsC1 ++ evsC2 ++ [.statusWrite docId "error_enrichment"])
        | (r2, evsC2) =>
          let summary2 : Option String := match r2 with
            | some (.ret o) => o
            | _ => none
          let termsJson := jsonDumpStrList (findTermsOnly g content)
          (updateDoc store1 docId (fun r =>
              { r with summary1_llm := summary1, summary2_llm := summary2,
                       document_specific_terms := some termsJson,
                       status_enrichment := "enriched", llm_error_message := none }),
           evs1 ++ evsC1 ++ evsC2 ++ [.statusWrite docId "enriched"])

/-- `MetadataEnricher.enrich_batch`: process the ids in order, threading the
store and concatenating the emitted events. -/
def enrichBatch (g : Glossary) (llm : LLMOracle) (store : Store) :
    List String → Store × List Event
  | [] => (store, [])
  | docId :: rest =>
    let (store1, evs) := enrichOne g llm store docId
    let (store2, evsRest) := enrichBatch g llm store1 rest
    (store2, evs ++ evsRest)

/-- A Python value as produced by `json.loads`: `null`, booleans, integers,
floats (kept as their lexeme; Python float formatting is not modelled),
strings, lists and dicts. -/
inductive PyJson where
  | null
  | bool (b : Bool)
  | int (n : Int)
  | float (lexeme : String)
  | str (s : String)
  | arr (items : List PyJson)
  | obj (fields : List (String × PyJson))

/-- Python `item is None` on a decoded JSON value. -/
def PyJson.isNull : PyJson → Bool
  | .null => true
  | _ => false

/-- JSON insignificant whitespace (the four characters `json` skips). -/
def jsonWs (c : Char) : Bool :=
  c = Char.ofNat 32 || c = Char.ofNat 9 || c = Char.ofNat 10 || c = Char.ofNat 13

/-- Skip insignificant whitespace. -/
def skipWs (cs : List Char) : List Char :=
  cs.dropWhile jsonWs

/-- Hex digit value. -/
def hexVal (c : Char) : Option Nat :=
  if c.toNat ≥ 48 ∧ c.toNat ≤ 57 then some (c.toNat - 48)
  else if c.toNat ≥ 97 ∧ c.toNat ≤ 102 then some (c.toNat - 87)
  else if c.toNat ≥ 65 ∧ c.toNat ≤ 70 then some (c.toNat - 55)
  else none

/-- Body of a JSON string literal after the opening quote.  Handles the
standard escapes and `\uXXXX` (surrogate pairs combined; a lone surrogate
is out of `Char` range and falls back to the accumulated default). -/
def parseJStringBody : List Char → List Char → Option (String × List Char)
  | acc, c :: rest =>
    if c = Char.ofNat 34 then
      some (String.mk acc.reverse, rest)
    else if c = Char.ofNat 92 then
      match rest with
      | e :: rest2 =>
        if e = Char.ofNat 34 then parseJStringBody (Char.ofNat 34 :: acc) rest2
        else if e = Char.ofNat 92 then parseJStringBody (Char.ofNat 92 :: acc) rest2
        else if e = Char.ofNat 47 then parseJStringBody (Char.ofNat 47 :: acc) rest2
        else if e = Char.ofNat 98 then parseJStringBody (Char.ofNat 8 :: acc) rest2
        else if e = Char.ofNat 102 then parseJStringBody (Char.ofNat 12 :: acc) rest2
        else if e = Char.ofNat 110 then parseJStringBody (Char.ofNat 10 :: acc) rest2
        else if e = Char.ofNat 114 then parseJStringBody (Char.ofNat 13 :: acc) rest2
        else if e = Char.ofNat 116 then parseJStringBody (Char.ofNat 9 :: acc) rest2
        else if e = Char.ofNat 117 then
          match rest2 with
          | h1 :: h2 :: h3 :: h4 :: rest3 =>
            match hexVal h1, hexVal h2, hexVal h3, hexVal h4 with
            | some v1, some v2, some v3, some v4 =>
              let n := v1 * 4096 + v2 * 256 + v3 * 16 + v4
              if n ≥ 55296 ∧ n < 56320 then
                match rest3 with
                | u1 :: u2 :: g1 :: g2 :: g3 :: g4 :: rest4 =>
                  if u1 = Char.ofNat 92 ∧ u2 = Char.ofNat 117 then
                    match hexVal g1, hexVal g2, hexVal g3, hexVal g4 with
                    | some w1, some w2, some w3, some w4 =>
                      let m := w1 * 4096 + w2 * 256 + w3 * 16 + w4
                      if m ≥ 56320 ∧ m < 57344 then
                        parseJStringBody
                          (Char.ofNat (65536 + (n - 55296) * 1024 + (m - 56320)) :: acc) rest4
                      else none
                    | _, _, _, _ => none
                  else none
                | _ => none
              else
                parseJStringBody (Char.ofNat n :: acc) rest3
            | _, _, _, _ => none
          | _ => none
        else none
      | [] => none
    else if c.toNat < 32 then
      none
    else
      parseJStringBody (c :: acc) rest
  | _, [] => none

/-- Digit span helper: longest digit prefix and the rest. -/
def digitSpan (cs : List Char) : List Char × List Char :=
  (cs.takeWhile Char.isDigit, cs.dropWhile Char.isDigit)

/-- A JSON number starting at `cs` (strict grammar: no leading zeros, an
optional fraction and exponent).  Integers become `.int`, anything with a
fraction or exponent keeps its lexeme as `.float`. -/
def parseJNumber (cs : List Char) : Option (PyJson × List Char) :=
  let (neg, cs1) := match cs with
    | c :: rest => if c = Char.ofNat 45 then (true, rest) else (false, cs)
    | [] => (false, cs)
  let (intPart, cs2) := digitSpan cs1
  if intPart = [] then none
  else if intPart.length > 1 ∧ intPart.head? = some (Char.ofNat 48) then none
  else
    let (fracPart, cs3) : List Char × List Char := match cs2 with
      | c :: rest =>
        if c = Char.ofNat 46 then
          let (ds, rest2) := digitSpan rest
          if ds = [] then ([], cs2) else (c :: ds, rest2)
        else ([], cs2)
      | [] => ([], cs2)
    let hasFrac := fracPart ≠ []
    let cs2' := if hasFrac then cs3 else cs2
    let (expPart, cs4) : List Char × List Char := match cs2' with
      | c :: rest =>
        if c = Char.ofNat 101 ∨ c = Char.ofNat 69 then
          let (sgn, rest1) : List Char × List Char := match rest with
            | d :: rest2 =>
              if d = Char.ofNat 43 ∨ d = Char.ofNat 45 then ([d], rest2) else ([], rest)
            | [] => ([], rest)
          let (ds, rest2) := digitSpan rest1
          if ds = [] then ([], cs2') else (c :: (sgn ++ ds), rest2)
        else ([], cs2')
      | [] => ([], cs2')
    let hasExp := expPart ≠ []
    let restFinal := if hasExp then cs4 else cs2'
    let lexeme := String.mk ((if neg then [Char.ofNat 45] else []) ++ intPart ++ fracPart ++ expPart)
    if hasFrac ∨ hasExp then
      some (.float lexeme, restFinal)
    else
      let mag : Nat := (String.mk intPart).toNat!
      some (.int (if neg then -(mag : Int) else (mag : Int)), restFinal)

/-- Mode of the fueled JSON scanner: a value, the items of an array after
its first element position, or the members of an object. -/
inductive PMode where
  | value
  | arrItems (acc : List PyJson)
  | objItems (acc : List (String × PyJson))

/-- Fueled recursive-descent scanner for the `json.loads` grammar (with the
Python extensions `NaN`, `Infinity`, `-Infinity`). -/
def parseRun : Nat → PMode → List Char → Option (PyJson × List Char)
  | 0, _, _ => none
  | fuel + 1, .value, cs =>
    match skipWs cs with
    | [] => none
    | c :: rest =>
      if c = Char.ofNat 110 then
        match rest with
        | u :: l1 :: l2 :: rest2 =>
          if u = Char.ofNat 117 ∧ l1 = Char.ofNat 108 ∧ l2 = Char.ofNat 108 then
            some (.null, rest2)
          else none
        | _ => none
      else if c = Char.ofNat 116 then
        match rest with
        | r :: u :: e :: rest2 =>
          if r = Char.ofNat 114 ∧ u = Char.ofNat 117 ∧ e = Char.ofNat 101 then
            some (.bool true, rest2)
          else none
        | _ => none
      else if c = Char.ofNat 102 then
        match rest with
        | a :: l :: s :: e :: rest2 =>
          if a = Char.ofNat 97 ∧ l = Char.ofNat 108 ∧ s = Char.ofNat 115 ∧ e = Char.ofNat 101 then
            some (.bool false, rest2)
          else none
        | _ => none
      else if c = Char.ofNat 78 then
        match rest with
        | a :: n :: rest2 =>
          if a = Char.ofNat 97 ∧ n = Char.ofNat 78 then some (.float "nan", rest2) else none
        | _ => none
      else if c = Char.ofNat 73 then
        match rest with
        | c1 :: c2 :: c3 :: c4 :: c5 :: c6 :: c7 :: rest2 =>
          if String.mk [c1, c2, c3, c4, c5, c6, c7] = "nfinity" then
            some (.float "inf", rest2)
          else none
        | _ => none
      else if c = Char.ofNat 34 then
        match parseJStringBody [] rest with
        | some (s, rest2) => some (.str s, rest2)
        | none => none
      else if c = Char.ofNat 91 then
        match skipWs rest with
        | d :: rest2 =>
          if d = Char.ofNat 93 then some (.arr [], rest2)
          else parseRun fuel (.arrItems []) (skipWs rest)
        | [] => none
      else if c = Char.ofNat 123 then
        match skipWs rest with
        | d :: rest2 =>
          if d = Char.ofNat 125 then some (.obj [], rest2)
          else parseRun fuel (.objItems []) (skipWs rest)
        | [] => none
      else if c = Char.ofNat 45 then
        match rest with
        | c1 :: c2 :: c3 :: c4 :: c5 :: c6 :: c7 :: c8 :: rest2 =>
          if String.mk [c1, c2, c3, c4, c5, c6, c7, c8] = "Infinity" then
            some (.float "-inf", rest2)
          else parseJNumber (c :: rest)
        | _ => parseJNumber (c :: rest)
      else
        parseJNumber (c :: rest)
  | fuel + 1, .arrItems acc, cs =>
    match parseRun fuel .value cs with
    | none => none
    | some (v, rest) =>
      match skipWs rest with
      | d :: rest2 =>
        if d = Char.ofNat 44 then parseRun fuel (.arrItems (acc ++ [v])) rest2
        else if d = Char.ofNat 93 then some (.arr (acc ++ [v]), rest2)
        else none
      | [] => none
  | fuel + 1, .objItems acc, cs =>
    match skipWs cs with
    | c :: rest =>
      if c = Char.ofNat 34 then
        match parseJStringBody [] rest with
        | none => none
        | some (k, rest2) =>
          match skipWs rest2 with
          | d :: rest3 =>
            if d = Char.ofNat 58 then
              match parseRun fuel .value rest3 with
              | none => none
              | some (v, rest4) =>
                match skipWs rest4 with
                | e :: rest5 =>
                  if e = Char.ofNat 44 then parseRun fuel (.objItems (acc ++ [(k, v)])) rest5
                  else if e = Char.ofNat 125 then some (.obj (acc ++ [(k, v)]), rest5)
                  else none
                | [] => none
            else none
          | [] => none
      else none
    | [] => none

/-- `json.loads`: parse one JSON document, requiring only whitespace after
it.  The fuel `2 * length + 4` dominates the recursion depth (each unit of
nesting consumes at least one character). -/
def pyJsonLoads (s : String) : Option PyJson :=
  match parseRun (2 * s.length + 4) .value s.toList with
  | some (v, rest) => if skipWs rest = [] then some v else none
  | none => none

/-- Python `str()` of a decoded JSON value, as applied by the list-field
decode (`str(item)`).  The fuel bounds the nesting depth; a value parsed
from a string of length `L` has depth at most `L`, so callers pass the
source length.  Container and float rendering are approximated
(single-quote choice, dict bodies and float normalization are not
load-bearing for any claim). -/
def pyStr : Nat → PyJson → String
  | _, .null => "None"
  | _, .bool true => "True"
  | _, .bool false => "False"
  | _, .int n => toString n
  | _, .float lexeme => lexeme
  | _, .str s => s
  | 0, .arr _ => ""
  | fuel + 1, .arr items =>
    let q := String.singleton (Char.ofNat 39)
    "[" ++ String.intercalate ", " (items.map (fun v => match v with
      | .str s2 => q ++ s2 ++ q
      | other => pyStr fuel other)) ++ "]"
  | _, .obj _ => String.mk [Char.ofNat 123, Char.ofNat 125]

/-- Decode of one stored encoded-list field, from
`fetch_enriched_documents_from_sqlite`
(`data_ingestion/run_ingestion_pipeline.py`, lines 77-102), for a TEXT
column value (`None` or a string): a parsed JSON list keeps its non-null
items stringified; a parsed JSON string becomes a one-element list; any
other parsed value becomes `[]`; a parse failure falls back to `[s]` when
the string has non-whitespace and `[]` otherwise; `None` and the empty
string become `[]`. -/
def decodeJsonListField (fieldValue : Option String) : List String :=
  match fieldValue with
  | none => []
  | some s =>
    if s ≠ "" then
      match pyJsonLoads s with
      | some (.arr items) => (items.filter (fun v => !v.isNull)).map (pyStr s.length)
      | some (.str s2) => [s2]
      | some _ => []
      | none => if pyStrip s ≠ "" then [s] else []
    else []

/-- Ways opening the metadata catalog can fail
(`DocumentParserGS.parse_documents`, lines 150-161): missing credentials
file, spreadsheet or worksheet not found, or any other exception. -/
inductive CatalogFailure where
  | credentialsFileMissing
  | spreadsheetNotFound
  | worksheetNotFound
  | otherFailure
  deriving DecidableEq, Repr

/-- One raw catalog row (`worksheet.get_all_records()` output): cell values
already passed through `str(...)` (`none` models an absent column key, on
which the Python `get` defaults apply). -/
structure CatalogRow where
  document_id : Option String := none
  file_name : Option String := none
  name_text : Option String := none
  legal_domain : Option String := none
  sub_areas_of_law : Option String := none
  summary : Option String := none
  primeiras_20_linhas : Option String := none
  document_category_original : Option String := none
  document_type_original : Option String := none
  legal_action_original : Option String := none
  jurisprudence_court_original : Option String := none
  version_original : Option String := none
  deriving DecidableEq, Repr

/-- The readable text files, as a map from path to contents (`none` models
`FileNotFoundError` or any other read failure, both of which the parser
turns into `full_text_content = None`). -/
abbrev FileSystem := String → Option String

/-- `os.path.join(base, name)` for the relevant shapes. -/
def pathJoin (base name : String) : String :=
  if base = "" then name
  else if base.toList.getLast? = some (Char.ofNat 47) then base ++ name
  else base ++ "/" ++ name

/-- Per-row body of `DocumentParserGS.parse_documents` (lines 101-144):
build the stripped field dictionary, skip rows without a usable
`document_id` (`i` is the 0-based row index, so the auto id uses `i + 2`),
and read the content file when a `file_name` is present. -/
def parseCatalogRow (files : FileSystem) (baseDir : String) (i : Nat)
    (row : CatalogRow) : Option ParsedDoc :=
  let docId := pyStrip (row.document_id.getD ("auto_id_" ++ toString (i + 2)))
  if docId = "" then none
  else
    let fileName := pyStrip (row.file_name.getD "")
    let (contentPath, fullText) : Option String × Option String :=
      if fileName ≠ "" then
        let p := pathJoin baseDir fileName
        (some p, files p)
      else
        (none, none)
    some
      { document_id := docId
        file_name := fileName
        document_title := pyStrip (row.name_text.getD "")
        legal_domain := pyStrip (row.legal_domain.getD "")
        sub_areas_of_law := pyStrip (row.sub_areas_of_law.getD "")
        summary := pyStrip (row.summary.getD "")
        first_lines := pyStrip (row.primeiras_20_linhas.getD "")
        document_category_original := pyStrip (row.document_category_original.getD "")
        document_type_original := pyStrip (row.document_type_original.getD "")
        legal_action_original := pyStrip (row.legal_action_original.getD "")
        jurisprudence_court_original := pyStrip (row.jurisprudence_court_original.getD "")
        version_original := pyStrip (row.version_original.getD "")
        content_path := contentPath
        full_text_content := fullText }

/-- `DocumentParserGS.parse_documents`: on success, the parsed rows; every
catalog failure is caught, logged and turned into the empty list
(lines 150-162). -/
def parseDocumentsGS (files : FileSystem) (baseDir : String)
    (catalog : Except CatalogFailure (List CatalogRow)) : List ParsedDoc :=
  match catalog with
  | .error _ => []
  | .ok rows => rows.enum.filterMap (fun p => parseCatalogRow files baseDir p.1 p.2)

/-- Cleaning applied to `specific_ids` in `run_enrichment_pipeline`
(lines 558-559 and 592): keep non-empty ids, stripped. -/
def cleanIds (ids : List String) : List String :=
  ids.filterMap (fun s => if s ≠ "" ∧ pyStrip s ≠ "" then some (pyStrip s) else none)

/-- Selection query of `run_enrichment_pipeline` (lines 576-604):
`status_enrichment IN ('pending'[, 'error_enrichment'])`, restricted to the
cleaned explicit ids when given, otherwise limited to `num_docs_to_process`
when positive; rows come back in `created_at` (insertion) order. -/
def selectDocsToEnrich (store : Store) (forceReprocessErrors : Bool)
    (specificIds : Option (List String)) (numDocs : Option Nat) : List String :=
  let statuses : List String :=
    if forceReprocessErrors then ["pending", "error_enrichment"] else ["pending"]
  let base := (store.filter (fun r => r.status_enrichment ∈ statuses)).map
    (fun r => r.document_id)
  match specificIds with
  | some ids => base.filter (fun id => id ∈ cleanIds ids)
  | none =>
    match numDocs with
    | some n => if n > 0 then base.take n else base
    | none => base

/-- Fueled chunking worker. -/
def chunksOfAux {α : Type} : Nat → Nat → List α → List (List α)
  | 0, _, _ => []
  | fuel + 1, n, xs => if xs.isEmpty then [] else xs.take n :: chunksOfAux fuel n (xs.drop n)

/-- `range(0, len(xs), n)` batching of `run_enrichment_pipeline`
(lines 617-621); callers guarantee `n > 0` (a zero step would raise in
Python). -/
def chunksOf {α : Type} (n : Nat) (xs : List α) : List (List α) :=
  chunksOfAux xs.length n xs

/-- The batched enrichment loop: `enrich_batch` over each chunk. -/
def enrichInBatches (g : Glossary) (llm : LLMOracle) (batchSize : Nat)
    (store : Store) (ids : List String) : Store × List Event :=
  (chunksOf batchSize ids).foldl
    (fun acc batch =>
      let (store1, evs) := enrichBatch g llm acc.1 batch
      (store1, acc.2 ++ evs))
    (store, [])

/-- `MetadataEnricher.index_enriched_documents_to_elasticsearch`
(lines 449-541): every `enriched` row is sent to the index; the external
index is modelled as accepting each document (per-document rejections are
swallowed by the source and change no store state). -/
def indexEnrichedDocuments (store : Store) : List Event :=
  (store.filter (fun r => r.status_enrichment == "enriched")).map
    (fun r => .esIndex r.document_id)

/-- `MetadataEnricher.run_enrichment_pipeline` (lines 543-628): parse the
catalog (failures yield zero rows), upsert the parsed rows (an escaping
`NameError` aborts the run), select pending (and, when forced, errored)
ids, enrich them in batches, then resync the enriched set into the index. -/
def runEnrichmentPipeline (g : Glossary) (llm : LLMOracle) (files : FileSystem)
    (baseDir : String) (catalog : Except CatalogFailure (List CatalogRow))
    (numDocs : Option Nat) (forceReprocessErrors : Bool)
    (specificIds : Option (List String)) (batchSize : Nat) (store : Store) :
    Except PyErr (Store × List Event) :=
  let parsed := parseDocumentsGS files baseDir catalog
  let forceIds := match specificIds with
    | some ids => cleanIds ids
    | none => []
  match insertInitialDocumentsFromParser forceIds parsed store with
  | .error e => .error e
  | .ok store1 =>
    let ids := selectDocsToEnrich store1 forceReprocessErrors specificIds numDocs
    let (store2, evs) := enrichInBatches g llm batchSize store1 ids
    .ok (store2, evs ++ indexEnrichedDocuments store2)

/-! ### Store lemmas -/

theorem lookupDoc_mem {store : Store} {id : String} {rec : DocRecord}
    (h : lookupDoc store id = some rec) : rec ∈ store ∧ rec.document_id = id := by
  refine ⟨List.mem_of_find?_eq_some h, ?_⟩
  have := List.find?_some h
  simpa using this

theorem lookupDoc_updateDoc_self (store : Store) (id : String) (f : DocRecord → DocRecord)
    (hf : ∀ r, (f r).document_id = r.document_id) :
    lookupDoc (updateDoc store id f) id = (lookupDoc store id).map f := by
  induction store with
  | nil => rfl
  | cons r rest ih =>
    by_cases h : r.document_id = id
    · simp [lookupDoc, updateDoc, List.find?, h, hf]
    · have hb : (r.document_id == id) = false := by simpa using h
      simp only [lookupDoc, updateDoc, List.map, List.find?, hb, if_false]
      simpa [lookupDoc, updateDoc, hb] using ih

theorem mem_updateDoc {store : Store} {id : String} {f : DocRecord → DocRecord}
    {r' : DocRecord} (h : r' ∈ updateDoc store id f) :
    (∃ r ∈ store, r.document_id = id ∧ r' = f r) ∨ r' ∈ store := by
  rcases List.mem_map.mp h with ⟨r, hr, hval⟩
  by_cases hid : r.document_id = id
  · exact .inl ⟨r, hr, hid, by simpa [hid] using hval.symm⟩
  · right
    have hb : (r.document_id == id) = false := by simpa using hid
    rw [if_neg (by simp [hb])] at hval
    exact hval ▸ hr

theorem updateDoc_map_id (store : Store) (id : String) (f : DocRecord → DocRecord)
    (hf : ∀ r, (f r).document_id = r.document_id) :
    (updateDoc store id f).map DocRecord.document_id = store.map DocRecord.document_id := by
  simp only [updateDoc, List.map_map]
  refine List.map_congr_left (fun r _ => ?_)
  by_cases h : r.document_id = id <;> simp [h, hf]

/-- Uniqueness of the `document_id` PRIMARY KEY, as guaranteed by the
schema in `db_setup.py`. -/
def KeysNodup (store : Store) : Prop :=
  (store.map DocRecord.document_id).Nodup

theorem keysNodup_updateDoc {store : Store} {id : String} {f : DocRecord → DocRecord}
    (hf : ∀ r, (f r).document_id = r.document_id) (h : KeysNodup store) :
    KeysNodup (updateDoc store id f) := by
  unfold KeysNodup
  rw [updateDoc_map_id store id f hf]
  exact h

theorem eq_of_keysNodup {store : Store} {r s : DocRecord} (h : KeysNodup store)
    (hr : r ∈ store) (hs : s ∈ store) (hid : r.document_id = s.document_id) : r = s :=
  List.inj_on_of_nodup_map h hr hs hid

/-! ### Sample data used by concrete counterexamples and witnesses -/

/-- A pending record with readable content. -/
def sampleRec : DocRecord :=
  { document_id := "d1", file_name := some "f.txt", content_path := some "/docs/f.txt"
    document_title_original := some "T", summary_original := some "S"
    first_lines_original := some "F", document_category_original := some "c"
    document_type_original := some "t", legal_action_original := some "l"
    legal_domain_original := some "D", sub_areas_of_law_original := some "[]"
    jurisprudence_court_original := some "j", version_original := some "v"
    full_text_content := some "texto da peticao", document_title_llm := none
    summary1_llm := none, summary2_llm := none, legal_domain_llm := none
    sub_areas_of_law_llm := none, document_specific_terms := none
    status_enrichment := "pending", llm_error_message := none }

/-- A catalog row for the same document id. -/
def sampleParsed : ParsedDoc :=
  { document_id := "d1", file_name := "f.txt", document_title := "T2"
    legal_domain := "D2", sub_areas_of_law := "a; b", summary := "S2"
    first_lines := "F2", document_category_original := "c2"
    document_type_original := "t2", legal_action_original := "l2"
    jurisprudence_court_original := "j2", version_original := "v2"
    content_path := some "/docs/f.txt", full_text_content := some "novo texto" }

/-- A generation oracle that always returns text. -/
def llmAlwaysText : LLMOracle := fun _ => .ret (some "resumo gerado")

/-- A generation oracle whose calls always fail by returning no text
(`_call_ollama_api_sync` swallowed the failure and returned `None`). -/
def llmAlwaysNone : LLMOracle := fun _ => .ret none

/-- A record in the terminal error state with a stored error message. -/
def sampleErrorRec : DocRecord :=
  { sampleRec with status_enrichment := "error_enrichment",
                   llm_error_message := some "Erro LLM: antigo" }

/-- A completed (enriched) record. -/
def sampleEnrichedRec : DocRecord :=
  { sampleRec with status_enrichment := "enriched",
                   summary1_llm := some "resumo tecnico",
                   summary2_llm := some "resumo leigo",
                   document_specific_terms := some "[]" }

/-- C2 (counterexample).  The claim asserts that a seen, unforced record
whose status is outside `{enriched, processing}` — including `error` — is
overwritten and reset to `pending` without raising.  On a stored record
with status `error_enrichment` the upsert instead evaluates the unbound
name `force_reprocess_errors` and raises `NameError`. -/
theorem C2_counterexample :
    upsertParsedDoc [] [sampleErrorRec] sampleParsed =
      .error (.nameError "force_reprocess_errors") := by
  rfl

/-- C2 (amended): for a seen, unforced record whose current status is not
`enriched`, `processing_llm` or `error_enrichment`, the upsert overwrites
the catalog fields, resets the status to `pending` and clears the error
message, without raising; a prior status of `error_enrichment` instead
raises `NameError` (see the counterexample). -/
theorem C2_upsert_overwrites_pending (forceIds : List String) (store : Store)
    (doc : ParsedDoc) (existing : DocRecord)
    (hlook : lookupDoc store doc.document_id = some existing)
    (hforce : doc.document_id ∉ forceIds)
    (hst : existing.status_enrichment ∉
      (["enriched", "processing_llm", "error_enrichment"] : List String)) :
    upsertParsedDoc forceIds store doc =
      .ok (updateDoc store doc.document_id (fun r => overwriteFromCatalog r (dbDocOf doc))) ∧
    lookupDoc (updateDoc store doc.document_id
        (fun r => overwriteFromCatalog r (dbDocOf doc))) doc.document_id =
      some (overwriteFromCatalog existing (dbDocOf doc)) ∧
    (overwriteFromCatalog existing (dbDocOf doc)).status_enrichment = "pending" ∧
    (overwriteFromCatalog existing (dbDocOf doc)).llm_error_message = none := by
  have hne : existing.status_enrichment ≠ "error_enrichment" := by
    intro h
    exact hst (by simp [h])
  have hnotin : existing.status_enrichment ∉ (["enriched", "processing_llm"] : List String) := by
    intro h
    rcases List.mem_cons.mp h with h1 | h1
    · exact hst (by simp [h1])
    · exact hst (by simp [List.mem_singleton.mp h1])
  refine ⟨?_, ?_, rfl, rfl⟩
  · simp only [upsertParsedDoc, hlook]
    rw [if_neg hforce, if_neg hne, if_pos hnotin]
  · rw [lookupDoc_updateDoc_self store doc.document_id
        (fun r => overwriteFromCatalog r (dbDocOf doc)) (fun r => rfl), hlook]
    rfl

/-- C2 (witness): instantiation on a concrete pending record. -/
theorem C2_witness :
    upsertParsedDoc [] [sampleRec] sampleParsed =
      .ok (updateDoc [sampleRec] "d1" (fun r => overwriteFromCatalog r (dbDocOf sampleParsed))) := by
  exact (C2_upsert_overwrites_pending [] [sampleRec] sampleParsed sampleRec rfl
    (by simp) (by decide)).1

/-- C8: a seen record currently `enriched` or `processing_llm`, with the
force flag unset for its id, is skipped by the upsert: the store — hence
every stored field and the status — is unchanged. -/
theorem C8_upsert_skips_completed (forceIds : List String) (store : Store)
    (doc : ParsedDoc) (existing : DocRecord)
    (hlook : lookupDoc store doc.document_id = some existing)
    (hforce : doc.document_id ∉ forceIds)
    (hst : existing.status_enrichment = "enriched" ∨
           existing.status_enrichment = "processing_llm") :
    upsertParsedDoc forceIds store doc = .ok store := by
  have hne : existing.status_enrichment ≠ "error_enrichment" := by
    rcases hst with h | h <;> simp [h]
  have hmem : existing.status_enrichment ∈ (["enriched", "processing_llm"] : List String) := by
    rcases hst with h | h <;> simp [h]
  simp only [upsertParsedDoc, hlook]
  rw [if_neg hforce, if_neg hne, if_neg (not_not_intro hmem)]

/-- C8 (witness): instantiation on a concrete enriched record. -/
theorem C8_witness :
    upsertParsedDoc [] [sampleEnrichedRec] sampleParsed = .ok [sampleEnrichedRec] := by
  exact C8_upsert_skips_completed [] [sampleEnrichedRec] sampleParsed sampleEnrichedRec rfl
    (by simp) (.inl rfl)

/-- C9: a seen record whose id is marked for forced reprocessing is reset
to `pending` with its error message cleared, regardless of its prior
status (which is unconstrained here). -/
theorem C9_forced_reset (forceIds : List String) (store : Store)
    (doc : ParsedDoc) (existing : DocRecord)
    (hlook : lookupDoc store doc.document_id = some existing)
    (hforce : doc.document_id ∈ forceIds) :
    upsertParsedDoc forceIds store doc =
      .ok (updateDoc store doc.document_id (fun r => overwriteFromCatalog r (dbDocOf doc))) ∧
    lookupDoc (updateDoc store doc.document_id
        (fun r => overwriteFromCatalog r (dbDocOf doc))) doc.document_id =
      some (overwriteFromCatalog existing (dbDocOf doc)) ∧
    (overwriteFromCatalog existing (dbDocOf doc)).status_enrichment = "pending" ∧
    (overwriteFromCatalog existing (dbDocOf doc)).llm_error_message = none := by
  refine ⟨?_, ?_, rfl, rfl⟩
  · simp only [upsertParsedDoc, hlook]
    rw [if_pos hforce]
  · rw [lookupDoc_updateDoc_self store doc.document_id
        (fun r => overwriteFromCatalog r (dbDocOf doc)) (fun r => rfl), hlook]
    rfl

/-- C9 (witness): instantiation on a concrete record in the `error` state
(so the reset is exercised on a prior status that is otherwise kept). -/
theorem C9_witness :
    upsertParsedDoc ["d1"] [sampleErrorRec] sampleParsed =
      .ok (updateDoc [sampleErrorRec] "d1"
        (fun r => overwriteFromCatalog r (dbDocOf sampleParsed))) ∧
    lookupDoc (updateDoc [sampleErrorRec] "d1"
        (fun r => overwriteFromCatalog r (dbDocOf sampleParsed))) "d1" =
      some (overwriteFromCatalog sampleErrorRec (dbDocOf sampleParsed)) := by
  have h := C9_forced_reset ["d1"] [sampleErrorRec] sampleParsed sampleErrorRec rfl (by decide)
  exact ⟨h.1, h.2.1⟩

/-! ### Glossary matcher lemmas (C10) -/

theorem findTermsLoop_mem (text : String) :
    ∀ (g : Glossary) (seen : List String) (acc : List GlossaryEntry)
      (x : GlossaryEntry), x ∈ findTermsLoop text g seen acc → x ∈ acc ∨ x ∈ g := by
  intro g
  induction g with
  | nil =>
    intro seen acc x hx
    exact .inl (by simpa [findTermsLoop] using hx)
  | cons e rest ih =>
    intro seen acc x hx
    simp only [findTermsLoop] at hx
    by_cases h1 : e.key ∈ seen
    · rw [if_pos h1] at hx
      rcases ih _ _ _ hx with h | h
      exacts [.inl h, .inr (List.mem_cons_of_mem _ h)]
    · rw [if_neg h1] at hx
      by_cases h2 : containsWordCI text e.key = true
      · rw [if_pos h2] at hx
        rcases ih _ _ _ hx with h | h
        · rcases List.mem_append.mp h with h3 | h3
          · exact .inl h3
          · exact .inr (by simp [List.mem_singleton.mp h3])
        · exact .inr (List.mem_cons_of_mem _ h)
      · rw [if_neg h2] at hx
        rcases ih _ _ _ hx with h | h
        exacts [.inl h, .inr (List.mem_cons_of_mem _ h)]

theorem findTermsLoop_keys_nodup (text : String) :
    ∀ (g : Glossary) (seen : List String) (acc : List GlossaryEntry),
      (acc.map GlossaryEntry.key).Nodup → (∀ a ∈ acc, a.key ∈ seen) →
      ((findTermsLoop text g seen acc).map GlossaryEntry.key).Nodup := by
  intro g
  induction g with
  | nil =>
    intro seen acc h1 _
    simpa [findTermsLoop] using h1
  | cons e rest ih =>
    intro seen acc h1 h2
    simp only [findTermsLoop]
    by_cases hseen : e.key ∈ seen
    · rw [if_pos hseen]
      exact ih _ _ h1 h2
    · rw [if_neg hseen]
      by_cases hmatch : containsWordCI text e.key = true
      · rw [if_pos hmatch]
        refine ih _ _ ?_ ?_
        · rw [List.map_append]
          refine List.Nodup.append h1 (by simp) ?_
          intro a ha hb
          have hae : a = e.key := by simpa using hb
          rcases List.mem_map.mp ha with ⟨b, hbmem, hbk⟩
          exact hseen (hae ▸ hbk ▸ h2 b hbmem)
        · intro a ha
          rcases List.mem_append.mp ha with h | h
          · exact List.mem_cons_of_mem _ (h2 a h)
          · simp [List.mem_singleton.mp h]
      · rw [if_neg hmatch]
        exact ih _ _ h1 h2

/-- C10: `find_terms_in_text` lists each glossary term at most once
(the returned term list has no duplicates, however often a term occurs in
the text), and returns `[]` on an empty input text or an empty loaded
glossary.  The hypothesis records what `_load_glossary` guarantees: every
dictionary key is the normalization of the stored term.  Totality of the
embedding reflects that the search raises no exception for string input. -/
theorem C10_find_terms_dedup (g : Glossary) (text : String)
    (hwf : ∀ e ∈ g, normalizeTerm e.termoJuridico = e.key) :
    (findTermsOnly g text).Nodup ∧
    findTermsOnly g "" = [] ∧
    findTermsOnly ([] : Glossary) text = [] := by
  refine ⟨?_, ?_, ?_⟩
  · unfold findTermsOnly findTermsInText
    by_cases hc : text = "" ∨ g = []
    · rw [if_pos hc]
      simp
    · rw [if_neg hc]
      have hkeys : ((findTermsLoop text g [] []).map GlossaryEntry.key).Nodup :=
        findTermsLoop_keys_nodup text g [] [] (by simp) (by simp)
      have hsub : ∀ x ∈ findTermsLoop text g [] [], x ∈ g := fun x hx =>
        (findTermsLoop_mem text g [] [] x hx).resolve_left (by simp)
      have hmaps :
          (((findTermsLoop text g [] []).map GlossaryEntry.termoJuridico).map normalizeTerm) =
            (findTermsLoop text g [] []).map GlossaryEntry.key := by
        rw [List.map_map]
        exact List.map_congr_left (fun x hx => hwf x (hsub x hx))
      exact List.Nodup.of_map normalizeTerm (hmaps ▸ hkeys)
  · simp [findTermsOnly, findTermsInText]
  · have : ("" : String) = text ∨ ([] : Glossary) = [] := .inr rfl
    simp [findTermsOnly, findTermsInText]

/-- C10 (witness): a two-term glossary against a text repeating a term. -/
theorem C10_witness :
    (findTermsOnly [⟨"dano moral", "Dano Moral"⟩, ⟨"usucapião", "Usucapião"⟩]
      "o dano moral e mais dano moral").Nodup ∧
    findTermsOnly [⟨"dano moral", "Dano Moral"⟩, ⟨"usucapião", "Usucapião"⟩] "" = [] := by
  have h := C10_find_terms_dedup [⟨"dano moral", "Dano Moral"⟩, ⟨"usucapião", "Usucapião"⟩]
    "o dano moral e mais dano moral" (by decide)
  exact ⟨h.1, h.2.1⟩

/-- C7 (counterexample).  The claim asserts that every non-JSON string `s`
decodes to `[s]`.  A whitespace-only string is not JSON, yet the fallback
`[field_value] if field_value.strip() else []` maps it to `[]`, not
`[" "]`. -/
theorem C7_counterexample :
    pyJsonLoads " " = none ∧ decodeJsonListField (some " ") = [] ∧
    decodeJsonListField (some " ") ≠ [" "] := by
  exact ⟨rfl, rfl, by decide⟩

/-- C7 (amended): a stored value parsing as a JSON array decodes to its
non-null items, each passed through `str(...)` (so an array of strings
decodes to exactly that list of strings); a parsed JSON string decodes to
a one-element list; a string that fails to parse falls back to `[s]` when
it has non-whitespace and to `[]` when it is whitespace-only; `NULL` and
the empty string decode to `[]`.  The decode is a total function: no input
raises. -/
theorem C7_decode_rules :
    (∀ s items, pyJsonLoads s = some (.arr items) →
      decodeJsonListField (some s) =
        (items.filter (fun v => !v.isNull)).map (pyStr s.length)) ∧
    (∀ s, pyJsonLoads s = none →
      decodeJsonListField (some s) = if pyStrip s ≠ "" then [s] else []) ∧
    (∀ s s2, pyJsonLoads s = some (.str s2) → decodeJsonListField (some s) = [s2]) ∧
    decodeJsonListField none = [] ∧
    decodeJsonListField (some "") = [] := by
  have hempty : pyJsonLoads "" = none := rfl
  refine ⟨?_, ?_, ?_, rfl, rfl⟩
  · intro s items h
    have hne : s ≠ "" := by
      intro he
      rw [he, hempty] at h
      exact Option.noConfusion h
    simp only [decodeJsonListField]
    rw [if_pos hne, h]
  · intro s h
    by_cases hne : s = ""
    · subst hne
      simp [decodeJsonListField, pyStrip]
    · simp only [decodeJsonListField]
      rw [if_pos hne, h]
  · intro s s2 h
    have hne : s ≠ "" := by
      intro he
      rw [he, hempty] at h
      exact Option.noConfusion h
    simp only [decodeJsonListField]
    rw [if_pos hne, h]

/-- C7 (witness): a JSON array of strings decodes to that list, and a bare
word falls back to a one-element list. -/
theorem C7_witness :
    decodeJsonListField (some "[\"a\", \"b\"]") = ["a", "b"] ∧
    decodeJsonListField (some "abc") = ["abc"] := by
  constructor
  · have h := C7_decode_rules.1 "[\"a\", \"b\"]" [.str "a", .str "b"] (by rfl)
    rw [h]
    decide
  · have h := C7_decode_rules.2.1 "abc" (by rfl)
    rw [h]
    decide

/-- The missing-content branch of `enrich_batch` in one equation. -/
theorem enrichOne_missing_content (g : Glossary) (llm : LLMOracle) (store : Store)
    (docId : String) (rec : DocRecord)
    (hlook : lookupDoc store docId = some rec)
    (hempty : rec.full_text_content.getD "" = "") :
    enrichOne g llm store docId =
      (updateDoc store docId (fun r =>
        { r with status_enrichment := "error_enrichment",
                 llm_error_message := some (rec.llm_error_message.getD missingContentMsg) }),
       [.statusWrite docId "error_enrichment"]) := by
  simp only [enrichOne, hlook]
  rw [if_pos hempty]

/-- In the content-present case, the very first event of the per-record
block is the durable `processing_llm` write (in particular it precedes
every generation call of that record). -/
theorem enrichOne_head_processing (g : Glossary) (llm : LLMOracle) (store : Store)
    (docId : String) (rec : DocRecord)
    (hlook : lookupDoc store docId = some rec)
    (hc : rec.full_text_content.getD "" ≠ "") :
    (enrichOne g llm store docId).2.head? =
      some (.statusWrite docId "processing_llm") := by
  simp only [enrichOne, hlook]
  rw [if_neg hc]
  split
  · rfl
  · split
    · rfl
    · rfl

/-- A record selected into a batch with missing content and a pre-existing
error message. -/
def sampleNoContentOldMsg : DocRecord :=
  { sampleRec with status_enrichment := "error_enrichment",
                   full_text_content := none,
                   llm_error_message := some "Erro antigo" }

/-- C5 (counterexample).  The claim asserts a missing-content record is
moved to `error` *with a missing-content reason*.  The source uses
`COALESCE(llm_error_message, ...)`, so a record carrying a prior error
message keeps it: the message persisted is "Erro antigo", not the
missing-content reason. -/
theorem C5_counterexample :
    ((enrichOne [] llmAlwaysText [sampleNoContentOldMsg] "d1").1.map
      (fun r => (r.status_enrichment, r.llm_error_message))) =
        [("error_enrichment", some "Erro antigo")] ∧
    "Erro antigo" ≠ missingContentMsg ∧
    (enrichOne [] llmAlwaysText [sampleNoContentOldMsg] "d1").2 =
      [.statusWrite "d1" "error_enrichment"] := by
  exact ⟨by decide, by decide, by decide⟩

/-- C5 (amended): a selected record whose `full_text_content` is NULL or
empty transitions directly to `error_enrichment` — with the
missing-content reason when it has no prior error message, a prior message
being kept per the `COALESCE` — and no generation-service call is made for
that record. -/
theorem C5_missing_content_no_call (g : Glossary) (llm : LLMOracle) (store : Store)
    (docId : String) (rec : DocRecord)
    (hlook : lookupDoc store docId = some rec)
    (hempty : rec.full_text_content.getD "" = "") :
    enrichOne g llm store docId =
      (updateDoc store docId (fun r =>
        { r with status_enrichment := "error_enrichment",
                 llm_error_message := some (rec.llm_error_message.getD missingContentMsg) }),
       [.statusWrite docId "error_enrichment"]) ∧
    ∀ p, Event.llmCall docId p ∉ (enrichOne g llm store docId).2 := by
  have h1 := enrichOne_missing_content g llm store docId rec hlook hempty
  refine ⟨h1, fun p => ?_⟩
  rw [h1]
  simp

/-- C5 (witness): a fresh pending record with NULL content gets the
missing-content message and produces no generation call. -/
theorem C5_witness :
    enrichOne [] llmAlwaysText [{ sampleRec with full_text_content := none }] "d1" =
      (updateDoc [{ sampleRec with full_text_content := none }] "d1" (fun r =>
        { r with status_enrichment := "error_enrichment",
                 llm_error_message := some missingContentMsg }),
       [.statusWrite "d1" "error_enrichment"]) := by
  exact (C5_missing_content_no_call [] llmAlwaysText
    [{ sampleRec with full_text_content := none }] "d1"
    { sampleRec with full_text_content := none } rfl rfl).1

theorem buildSummaryPrompt_ne_empty (s : String) (ty : SummaryType)
    (h1 : s ≠ "") (h2 : pyStrip s ≠ "") : buildSummaryPrompt s ty ≠ "" := by
  unfold buildSummaryPrompt
  rw [if_neg (by simp [h1, h2])]
  intro hc
  have hlen := congrArg String.length hc
  rw [String.length_append, String.length_append, String.length_append] at hlen
  have hz : ("" : String).length = 0 := rfl
  rw [hz] at hlen
  have hpos : 0 < (summaryInstruction ty).length := by
    cases ty <;> decide
  omega

/-- A generation oracle that always raises. -/
def llmAlwaysRaise : LLMOracle := fun _ => .exn "Erro de conexao com Ollama"

/-- C3: when a generation call raises, the remaining call for that record
is not issued (the event block holds exactly the calls made before the
failure), the record moves to `error_enrichment` with the truncated
message `"Erro LLM: " ++ str(e)[:450]`, and the batch continues with the
next record.  Failure of the second call likewise errors the record after
both calls.  (In the source a generation call *fails* by raising;
transport-level failures are swallowed by `_call_ollama_api_sync` and
return `None` instead — see C1.) -/
theorem C3_generation_failure_isolated (g : Glossary) (llm : LLMOracle) (store : Store)
    (docId : String) (rec : DocRecord) (e : String)
    (hlook : lookupDoc store docId = some rec)
    (hcontent : rec.full_text_content.getD "" ≠ "")
    (hws : pyStrip (rec.full_text_content.getD "") ≠ "") :
    (llm (buildSummaryPrompt (rec.full_text_content.getD "") .technical) = .exn e →
      enrichOne g llm store docId =
        (updateDoc (updateDoc store docId (fun r =>
            { r with status_enrichment := "processing_llm", llm_error_message := none }))
          docId (fun r =>
            { r with status_enrichment := "error_enrichment",
                     llm_error_message := some ("Erro LLM: " ++ pyTake e 450) }),
         [.statusWrite docId "processing_llm",
          .llmCall docId (buildSummaryPrompt (rec.full_text_content.getD "") .technical),
          .statusWrite docId "error_enrichment"])) ∧
    (∀ o, llm (buildSummaryPrompt (rec.full_text_content.getD "") .technical) = .ret o →
      llm (buildSummaryPrompt (rec.full_text_content.getD "") .nonTechnical) = .exn e →
      enrichOne g llm store docId =
        (updateDoc (updateDoc store docId (fun r =>
            { r with status_enrichment := "processing_llm", llm_error_message := none }))
          docId (fun r =>
            { r with status_enrichment := "error_enrichment",
                     llm_error_message := some ("Erro LLM: " ++ pyTake e 450) }),
         [.statusWrite docId "processing_llm",
          .llmCall docId (buildSummaryPrompt (rec.full_text_content.getD "") .technical),
          .llmCall docId (buildSummaryPrompt (rec.full_text_content.getD "") .nonTechnical),
          .statusWrite docId "error_enrichment"])) ∧
    (∀ rest, enrichBatch g llm store (docId :: rest) =
      ((enrichBatch g llm (enrichOne g llm store docId).1 rest).1,
       (enrichOne g llm store docId).2 ++
         (enrichBatch g llm (enrichOne g llm store docId).1 rest).2)) := by
  have hp1 : buildSummaryPrompt (rec.full_text_content.getD "") .technical ≠ "" :=
    buildSummaryPrompt_ne_empty _ _ hcontent hws
  have hp2 : buildSummaryPrompt (rec.full_text_content.getD "") .nonTechnical ≠ "" :=
    buildSummaryPrompt_ne_empty _ _ hcontent hws
  refine ⟨?_, ?_, ?_⟩
  · intro hexn
    simp only [enrichOne, hlook]
    rw [if_neg hcontent, if_pos hp1, hexn]
    rfl
  · intro o hret hexn
    simp only [enrichOne, hlook]
    rw [if_neg hcontent, if_pos hp1, hret, if_pos hp2, hexn]
    rfl
  · intro rest
    rcases h : enrichOne g llm store docId with ⟨s1, evs1⟩
    rcases h2 : enrichBatch g llm s1 rest with ⟨s2, evs2⟩
    simp [enrichBatch, h, h2]

/-- C3 (witness): a raising oracle on a concrete pending record errors the
record, makes exactly one call, and the batch moves on. -/
theorem C3_witness :
    ((enrichOne [] llmAlwaysRaise [sampleRec] "d1").1.map
      (fun r => (r.status_enrichment, r.llm_error_message))) =
        [("error_enrichment", some "Erro LLM: Erro de conexao com Ollama")] ∧
    ((enrichOne [] llmAlwaysRaise [sampleRec] "d1").2.filter
      (fun ev => match ev with
        | .llmCall _ _ => true
        | _ => false)).length = 1 := by
  have h := (C3_generation_failure_isolated [] llmAlwaysRaise [sampleRec] "d1" sampleRec
    "Erro de conexao com Ollama" rfl (by decide) (by decide)).1 rfl
  rw [h]
  exact ⟨by decide, by decide⟩

/-- C4 (counterexample).  The claim asserts no record skips `processing`:
every record ending a run in `error` or `enriched` was durably marked
`processing` first.  A selected pending record with NULL content ends the
run in `error_enrichment` while the run never wrote `processing_llm` for
it. -/
theorem C4_counterexample :
    ((enrichBatch [] llmAlwaysText [{ sampleRec with full_text_content := none }]
      ["d1"]).1.map (fun r => r.status_enrichment)) = ["error_enrichment"] ∧
    Event.statusWrite "d1" "processing_llm" ∉
      (enrichBatch [] llmAlwaysText [{ sampleRec with full_text_content := none }]
        ["d1"]).2 := by
  exact ⟨by decide, by decide⟩

/-- C4 (amended): per processed record, (1) any generation call is
preceded by the `processing_llm` write, which is the first event of the
record's block; (2) a record left `enriched` had that `processing_llm`
write first; (3) a record left in `error_enrichment` either had the
`processing_llm` write first, or — the missing-content exception — moved
directly from its previous status to `error_enrichment` with no
generation call at all. -/
theorem C4_transitions (g : Glossary) (llm : LLMOracle) (store : Store) (docId : String) :
    (∀ p, Event.llmCall docId p ∈ (enrichOne g llm store docId).2 →
      (enrichOne g llm store docId).2.head? =
        some (.statusWrite docId "processing_llm")) ∧
    (∀ rec2, lookupDoc (enrichOne g llm store docId).1 docId = some rec2 →
      rec2.status_enrichment = "enriched" →
      (enrichOne g llm store docId).2.head? =
        some (.statusWrite docId "processing_llm")) ∧
    (∀ rec rec2, lookupDoc store docId = some rec →
      lookupDoc (enrichOne g llm store docId).1 docId = some rec2 →
      rec2.status_enrichment = "error_enrichment" →
      (enrichOne g llm store docId).2.head? =
          some (.statusWrite docId "processing_llm") ∨
        ((enrichOne g llm store docId).2 = [.statusWrite docId "error_enrichment"] ∧
         rec.full_text_content.getD "" = "" ∧
         ∀ p, Event.llmCall docId p ∉ (enrichOne g llm store docId).2)) := by
  rcases hl : lookupDoc store docId with _ | rec0
  · have hid : enrichOne g llm store docId = (store, []) := by
      simp only [enrichOne, hl]
    refine ⟨?_, ?_, ?_⟩
    · intro p hp
      rw [hid] at hp
      simp at hp
    · intro rec2 h2 _
      rw [hid] at h2
      have h2' : lookupDoc store docId = some rec2 := h2
      rw [hl] at h2'
      exact Option.noConfusion h2'
    · intro rec rec2 hrec _ _
      exact Option.noConfusion hrec
  · by_cases hc : rec0.full_text_content.getD "" = ""
    · have heq := enrichOne_missing_content g llm store docId rec0 hl hc
      refine ⟨?_, ?_, ?_⟩
      · intro p hp
        rw [heq] at hp
        simp at hp
      · intro rec2 h2 hst
        rw [heq] at h2
        have h2' : lookupDoc (updateDoc store docId (fun r =>
            { r with status_enrichment := "error_enrichment",
                     llm_error_message :=
                       some (rec0.llm_error_message.getD missingContentMsg) }))
            docId = some rec2 := h2
        rw [lookupDoc_updateDoc_self store docId (fun r =>
            { r with status_enrichment := "error_enrichment",
                     llm_error_message :=
                       some (rec0.llm_error_message.getD missingContentMsg) })
          (fun r => rfl), hl] at h2'
        have hrec2 : rec2.status_enrichment = "error_enrichment" := by
          cases Option.some.inj h2'
          rfl
        rw [hst] at hrec2
        exact absurd hrec2 (by decide)
      · intro rec rec2 hrec _ _
        cases Option.some.inj hrec
        refine .inr ⟨by rw [heq], hc, ?_⟩
        intro p hp
        rw [heq] at hp
        simp at hp
    · have hh := enrichOne_head_processing g llm store docId rec0 hl hc
      exact ⟨fun _ _ => hh, fun _ _ _ => hh, fun _ _ _ _ _ => .inl hh⟩

/-- C4 (witness): on a record with content, the block starts with the
`processing_llm` write and it is the head of the events that contain the
generation calls. -/
theorem C4_witness :
    (enrichOne [] llmAlwaysText [sampleRec] "d1").2.head? =
      some (.statusWrite "d1" "processing_llm") := by
  refine (C4_transitions [] llmAlwaysText [sampleRec] "d1").1
    (buildSummaryPrompt "texto da peticao" .technical) ?_
  decide

/-- C6 (counterexample).  The claim asserts a catalog-open failure is
fatal and aborts the run.  With missing credentials and a store holding
one pending record, the pipeline returns normally (`.ok`), and its event
trace shows the later stages ran: the pending record was enriched
(processing write, two generation calls, enriched write) and resynced to
the index — five events, ending with the record `enriched`. -/
theorem C6_counterexample :
    (runEnrichmentPipeline [] llmAlwaysText (fun _ => none) "/docs"
      (.error .credentialsFileMissing) none false none 1 [sampleRec]).toOption ≠ none ∧
    ((runEnrichmentPipeline [] llmAlwaysText (fun _ => none) "/docs"
      (.error .credentialsFileMissing) none false none 1 [sampleRec]).toOption.map
        (fun p => p.2.length)) = some 5 ∧
    ((runEnrichmentPipeline [] llmAlwaysText (fun _ => none) "/docs"
      (.error .credentialsFileMissing) none false none 1 [sampleRec]).toOption.map
        (fun p => p.1.map (fun r => r.status_enrichment))) = some ["enriched"] := by
  exact ⟨by decide, by decide, by decide⟩

/-- C6 (amended): a failure to open the catalog (missing credentials,
spreadsheet or worksheet not found, or any other error) is caught inside
the reader, which returns zero parsed rows; the pipeline run then
continues — upserting nothing and still running selection, enrichment and
index resync over the records already in the store — instead of
aborting. -/
theorem C6_catalog_failure_continues (g : Glossary) (llm : LLMOracle)
    (files : FileSystem) (baseDir : String) (e : CatalogFailure)
    (numDocs : Option Nat) (force : Bool) (specificIds : Option (List String))
    (batchSize : Nat) (store : Store) :
    parseDocumentsGS files baseDir (.error e) = [] ∧
    ∃ res, runEnrichmentPipeline g llm files baseDir (.error e) numDocs force
      specificIds batchSize store = .ok res := by
  refine ⟨rfl, ?_⟩
  cases specificIds <;> exact ⟨_, rfl⟩

/-- The §3 invariant claimed for enriched records: non-empty content and
both derived summaries present. -/
def EnrichedInv (store : Store) : Prop :=
  ∀ r ∈ store, r.status_enrichment = "enriched" →
    (r.full_text_content.getD "" ≠ "" ∧ r.summary1_llm ≠ none ∧ r.summary2_llm ≠ none)

/-- No stored content is a non-empty whitespace-only string (such content
passes the truthiness precondition but produces empty prompts, so both
generation calls are skipped). -/
def ContentNotWhitespace (store : Store) : Prop :=
  ∀ r ∈ store, r.full_text_content.getD "" = "" ∨
    pyStrip (r.full_text_content.getD "") ≠ ""

instance (store : Store) : Decidable (EnrichedInv store) :=
  inferInstanceAs (Decidable (∀ r ∈ store, r.status_enrichment = "enriched" →
    (r.full_text_content.getD "" ≠ "" ∧ r.summary1_llm ≠ none ∧ r.summary2_llm ≠ none)))

instance (store : Store) : Decidable (ContentNotWhitespace store) :=
  inferInstanceAs (Decidable (∀ r ∈ store, r.full_text_content.getD "" = "" ∨
    pyStrip (r.full_text_content.getD "") ≠ ""))

instance (store : Store) : Decidable (KeysNodup store) :=
  inferInstanceAs (Decidable ((store.map DocRecord.document_id).Nodup))

/-- The half of the §3 invariant that holds regardless of the generation
outcomes: enriched records have non-empty content. -/
def ContentInv (store : Store) : Prop :=
  ∀ r ∈ store, r.status_enrichment = "enriched" → r.full_text_content.getD "" ≠ ""

instance (store : Store) : Decidable (ContentInv store) :=
  inferInstanceAs (Decidable (∀ r ∈ store, r.status_enrichment = "enriched" →
    r.full_text_content.getD "" ≠ ""))

theorem contentNW_updateDoc {store : Store} {id : String} {f : DocRecord → DocRecord}
    (hf : ∀ r, (f r).full_text_content = r.full_text_content)
    (h : ContentNotWhitespace store) : ContentNotWhitespace (updateDoc store id f) := by
  intro r' hr'
  rcases mem_updateDoc hr' with ⟨r, hr, _, rfl⟩ | hr
  · rw [hf]
    exact h r hr
  · exact h r' hr

theorem enrichedInv_updateDoc_nonenriched {store : Store} {id : String}
    {f : DocRecord → DocRecord} (hf : ∀ r, (f r).status_enrichment ≠ "enriched")
    (h : EnrichedInv store) : EnrichedInv (updateDoc store id f) := by
  intro r' hr' hst
  rcases mem_updateDoc hr' with ⟨r, hr, _, rfl⟩ | hr
  · exact absurd hst (hf r)
  · exact h r' hr hst

/-- One enrichment step preserves key uniqueness, the content-shape side
condition, and — when every generation call returns text — the enriched
invariant. -/
theorem enrichOne_preserves_inv (g : Glossary) (llm : LLMOracle) (store : Store)
    (docId : String) (hkeys : KeysNodup store) (hcw : ContentNotWhitespace store)
    (hinv : EnrichedInv store) (hllm : ∀ p, ∃ s, llm p = .ret (some s)) :
    KeysNodup (enrichOne g llm store docId).1 ∧
    ContentNotWhitespace (enrichOne g llm store docId).1 ∧
    EnrichedInv (enrichOne g llm store docId).1 := by
  rcases hl : lookupDoc store docId with _ | rec0
  · have hid : enrichOne g llm store docId = (store, []) := by
      simp only [enrichOne, hl]
    rw [hid]
    exact ⟨hkeys, hcw, hinv⟩
  · by_cases hc : rec0.full_text_content.getD "" = ""
    · have heq := enrichOne_missing_content g llm store docId rec0 hl hc
      rw [heq]
      exact ⟨keysNodup_updateDoc (fun r => rfl) hkeys,
             contentNW_updateDoc (fun r => rfl) hcw,
             enrichedInv_updateDoc_nonenriched
               (fun r => (by decide : ("error_enrichment" : String) ≠ "enriched")) hinv⟩
    · have hmem0 := lookupDoc_mem hl
      have hws : pyStrip (rec0.full_text_content.getD "") ≠ "" :=
        (hcw rec0 hmem0.1).resolve_left hc
      have hp1 : buildSummaryPrompt (rec0.full_text_content.getD "") .technical ≠ "" :=
        buildSummaryPrompt_ne_empty _ _ hc hws
      have hp2 : buildSummaryPrompt (rec0.full_text_content.getD "") .nonTechnical ≠ "" :=
        buildSummaryPrompt_ne_empty _ _ hc hws
      obtain ⟨s1, hs1⟩ := hllm (buildSummaryPrompt (rec0.full_text_content.getD "") .technical)
      obtain ⟨s2, hs2⟩ := hllm (buildSummaryPrompt (rec0.full_text_content.getD "") .nonTechnical)
      have heq : enrichOne g llm store docId =
          (updateDoc (updateDoc store docId (fun r =>
              { r with status_enrichment := "processing_llm", llm_error_message := none }))
            docId (fun r =>
              { r with summary1_llm := some s1, summary2_llm := some s2,
                       document_specific_terms := some (jsonDumpStrList
                         (findTermsOnly g (rec0.full_text_content.getD ""))),
                       status_enrichment := "enriched", llm_error_message := none }),
           [.statusWrite docId "processing_llm",
            .llmCall docId (buildSummaryPrompt (rec0.full_text_content.getD "") .technical),
            .llmCall docId (buildSummaryPrompt (rec0.full_text_content.getD "") .nonTechnical),
            .statusWrite docId "enriched"]) := by
        simp only [enrichOne, hl]
        rw [if_neg hc, if_pos hp1, hs1, if_pos hp2, hs2]
        rfl
      rw [heq]
      refine ⟨keysNodup_updateDoc (fun r => rfl) (keysNodup_updateDoc (fun r => rfl) hkeys),
              contentNW_updateDoc (fun r => rfl) (contentNW_updateDoc (fun r => rfl) hcw),
              ?_⟩
      intro r' hr' hst
      rcases mem_updateDoc hr' with ⟨r1, hr1, hid1, rfl⟩ | hr'mem
      · refine ⟨?_, by simp, by simp⟩
        rcases mem_updateDoc hr1 with ⟨r, hr, hidr, rfl⟩ | hr1mem
        · have hr0 : r = rec0 :=
            eq_of_keysNodup hkeys hr hmem0.1 (by rw [hidr, hmem0.2])
          exact hr0 ▸ hc
        · have hr0 : r1 = rec0 :=
            eq_of_keysNodup hkeys hr1mem hmem0.1 (by rw [hid1, hmem0.2])
          exact hr0 ▸ hc
      · rcases mem_updateDoc hr'mem with ⟨r, hr, hidr, rfl⟩ | hr'orig
        · exact absurd hst (show ("processing_llm" : String) ≠ "enriched" by decide)
        · exact hinv r' hr'orig hst

theorem contentInv_updateDoc {store : Store} {id : String} {f : DocRecord → DocRecord}
    (h : ContentInv store)
    (hfs : ∀ r, (f r).status_enrichment ≠ "enriched") :
    ContentInv (updateDoc store id f) := by
  intro r' hr' hst
  rcases mem_updateDoc hr' with ⟨r, hr, _, rfl⟩ | hr
  · exact absurd hst (hfs r)
  · exact h r' hr hst

/-- Content half after the processing write followed by any
content-preserving final write, given the looked-up record has content:
every key-matching row is the looked-up one (PRIMARY KEY), so the possibly
`enriched` result still carries its non-empty content. -/
theorem contentInv_after_enrich_update (store : Store) (docId : String)
    (rec0 : DocRecord) {fP fE : DocRecord → DocRecord}
    (hkeys : KeysNodup store) (hci : ContentInv store)
    (hl : lookupDoc store docId = some rec0)
    (hc : rec0.full_text_content.getD "" ≠ "")
    (hfPc : ∀ r, (fP r).full_text_content = r.full_text_content)
    (hfPs : ∀ r, (fP r).status_enrichment ≠ "enriched")
    (hfEc : ∀ r, (fE r).full_text_content = r.full_text_content) :
    ContentInv (updateDoc (updateDoc store docId fP) docId fE) := by
  have hmem0 := lookupDoc_mem hl
  intro r' hr' hst
  rcases mem_updateDoc hr' with ⟨r1, hr1, hid1, rfl⟩ | hr'mem
  · rw [hfEc]
    rcases mem_updateDoc hr1 with ⟨r, hr, hidr, rfl⟩ | hr1mem
    · rw [hfPc]
      have hr0 : r = rec0 :=
        eq_of_keysNodup hkeys hr hmem0.1 (by rw [hidr, hmem0.2])
      exact hr0 ▸ hc
    · have hr0 : r1 = rec0 :=
        eq_of_keysNodup hkeys hr1mem hmem0.1 (by rw [hid1, hmem0.2])
      exact hr0 ▸ hc
  · rcases mem_updateDoc hr'mem with ⟨r, hr, hidr, rfl⟩ | hr'orig
    · exact absurd hst (hfPs r)
    · exact hci r' hr'orig hst

/-- One enrichment step preserves key uniqueness and the content half of
the invariant for an arbitrary generation oracle — failing calls
included. -/
theorem enrichOne_preserves_content (g : Glossary) (llm : LLMOracle) (store : Store)
    (docId : String) (hkeys : KeysNodup store) (hci : ContentInv store) :
    KeysNodup (enrichOne g llm store docId).1 ∧
    ContentInv (enrichOne g llm store docId).1 := by
  rcases hl : lookupDoc store docId with _ | rec0
  · have hid : enrichOne g llm store docId = (store, []) := by
      simp only [enrichOne, hl]
    rw [hid]
    exact ⟨hkeys, hci⟩
  · by_cases hc : rec0.full_text_content.getD "" = ""
    · have heq := enrichOne_missing_content g llm store docId rec0 hl hc
      rw [heq]
      exact ⟨keysNodup_updateDoc (fun r => rfl) hkeys,
             contentInv_updateDoc hci
               (fun r => (by decide : ("error_enrichment" : String) ≠ "enriched"))⟩
    · by_cases hws : pyStrip (rec0.full_text_content.getD "") = ""
      · have hpe1 : buildSummaryPrompt (rec0.full_text_content.getD "") .technical = "" := by
          unfold buildSummaryPrompt
          rw [if_pos (Or.inr hws)]
        have hpe2 : buildSummaryPrompt (rec0.full_text_content.getD "") .nonTechnical = "" := by
          unfold buildSummaryPrompt
          rw [if_pos (Or.inr hws)]
        have heq1 : (enrichOne g llm store docId).1 =
            updateDoc (updateDoc store docId (fun r =>
                { r with status_enrichment := "processing_llm", llm_error_message := none }))
              docId (fun r =>
                { r with summary1_llm := none, summary2_llm := none,
                         document_specific_terms := some (jsonDumpStrList
                           (findTermsOnly g (rec0.full_text_content.getD ""))),
                         status_enrichment := "enriched", llm_error_message := none }) := by
          simp only [enrichOne, hl]
          rw [if_neg hc, if_neg (fun hn => hn hpe1), if_neg (fun hn => hn hpe2)]
        rw [heq1]
        exact ⟨keysNodup_updateDoc (fun r => rfl) (keysNodup_updateDoc (fun r => rfl) hkeys),
               contentInv_after_enrich_update store docId rec0 hkeys hci hl hc
                 (fun r => rfl)
                 (fun r => (by decide : ("processing_llm" : String) ≠ "enriched"))
                 (fun r => rfl)⟩
      · have hp1 : buildSummaryPrompt (rec0.full_text_content.getD "") .technical ≠ "" :=
          buildSummaryPrompt_ne_empty _ _ hc hws
        have hp2 : buildSummaryPrompt (rec0.full_text_content.getD "") .nonTechnical ≠ "" :=
          buildSummaryPrompt_ne_empty _ _ hc hws
        rcases hr1 : llm (buildSummaryPrompt (rec0.full_text_content.getD "") .technical)
          with o1 | e1
        · rcases hr2 : llm (buildSummaryPrompt (rec0.full_text_content.getD "") .nonTechnical)
            with o2 | e2
          · have heq1 : (enrichOne g llm store docId).1 =
                updateDoc (updateDoc store docId (fun r =>
                    { r with status_enrichment := "processing_llm", llm_error_message := none }))
                  docId (fun r =>
                    { r with summary1_llm := o1, summary2_llm := o2,
                             document_specific_terms := some (jsonDumpStrList
                               (findTermsOnly g (rec0.full_text_content.getD ""))),
                             status_enrichment := "enriched", llm_error_message := none }) := by
              simp only [enrichOne, hl]
              rw [if_neg hc, if_pos hp1, hr1, if_pos hp2, hr2]
            rw [heq1]
            exact ⟨keysNodup_updateDoc (fun r => rfl)
                     (keysNodup_updateDoc (fun r => rfl) hkeys),
                   contentInv_after_enrich_update store docId rec0 hkeys hci hl hc
                     (fun r => rfl)
                     (fun r => (by decide : ("processing_llm" : String) ≠ "enriched"))
                     (fun r => rfl)⟩
          · have heq1 : (enrichOne g llm store docId).1 =
                updateDoc (updateDoc store docId (fun r =>
                    { r with status_enrichment := "processing_llm", llm_error_message := none }))
                  docId (fun r =>
                    { r with status_enrichment := "error_enrichment",
                             llm_error_message := some ("Erro LLM: " ++ pyTake e2 450) }) := by
              simp only [enrichOne, hl]
              rw [if_neg hc, if_pos hp1, hr1, if_pos hp2, hr2]
            rw [heq1]
            exact ⟨keysNodup_updateDoc (fun r => rfl)
                     (keysNodup_updateDoc (fun r => rfl) hkeys),
                   contentInv_after_enrich_update store docId rec0 hkeys hci hl hc
                     (fun r => rfl)
                     (fun r => (by decide : ("processing_llm" : String) ≠ "enriched"))
                     (fun r => rfl)⟩
        · have heq1 : (enrichOne g llm store docId).1 =
              updateDoc (updateDoc store docId (fun r =>
                  { r with status_enrichment := "processing_llm", llm_error_message := none }))
                docId (fun r =>
                  { r with status_enrichment := "error_enrichment",
                           llm_error_message := some ("Erro LLM: " ++ pyTake e1 450) }) := by
            simp only [enrichOne, hl]
            rw [if_neg hc, if_pos hp1, hr1]
          rw [heq1]
          exact ⟨keysNodup_updateDoc (fun r => rfl)
                   (keysNodup_updateDoc (fun r => rfl) hkeys),
                 contentInv_after_enrich_update store docId rec0 hkeys hci hl hc
                   (fun r => rfl)
                   (fun r => (by decide : ("processing_llm" : String) ≠ "enriched"))
                   (fun r => rfl)⟩

/-- The content half of the invariant is preserved by a whole batch, for
an arbitrary generation oracle. -/
theorem enrichBatch_preserves_content (g : Glossary) (llm : LLMOracle) :
    ∀ (ids : List String) (store : Store), KeysNodup store → ContentInv store →
      ContentInv (enrichBatch g llm store ids).1 := by
  intro ids
  induction ids with
  | nil =>
    intro store _ h
    exact h
  | cons docId rest ih =>
    intro store hk hci
    have hstep := enrichOne_preserves_content g llm store docId hk hci
    have hsplit : (enrichBatch g llm store (docId :: rest)).1 =
        (enrichBatch g llm (enrichOne g llm store docId).1 rest).1 := by
      rcases h1 : enrichOne g llm store docId with ⟨s1, evs1⟩
      rcases h2 : enrichBatch g llm s1 rest with ⟨s2, evs2⟩
      simp [enrichBatch, h1, h2]
    rw [hsplit]
    exact ih _ hstep.1 hstep.2

/-- The full invariant is preserved by a whole batch when every generation
call returns text and no stored content is whitespace-only. -/
theorem enrichBatch_preserves_enrichedInv (g : Glossary) (llm : LLMOracle) (store : Store)
    (ids : List String) (hkeys : KeysNodup store) (hcw : ContentNotWhitespace store)
    (hinv : EnrichedInv store) (hllm : ∀ p, ∃ s, llm p = .ret (some s)) :
    EnrichedInv (enrichBatch g llm store ids).1 := by
  induction ids generalizing store with
  | nil => exact hinv
  | cons docId rest ih =>
    have hstep := enrichOne_preserves_inv g llm store docId hkeys hcw hinv hllm
    have hkeep : ContentNotWhitespace (enrichOne g llm store docId).1 ∧
        KeysNodup (enrichOne g llm store docId).1 := ⟨hstep.2.1, hstep.1⟩
    have hsplit : (enrichBatch g llm store (docId :: rest)).1 =
        (enrichBatch g llm (enrichOne g llm store docId).1 rest).1 := by
      rcases h1 : enrichOne g llm store docId with ⟨s1, evs1⟩
      rcases h2 : enrichBatch g llm s1 rest with ⟨s2, evs2⟩
      simp [enrichBatch, h1, h2]
    rw [hsplit]
    exact ih (enrichOne g llm store docId).1 hkeep.2 hkeep.1 hstep.2.2

/-- C1 (counterexample).  The claim asserts that after any run — including
one in which a generation call fails by returning no text — every
`enriched` record has non-empty content and both summaries non-null.
With an oracle whose calls all return `None` (exactly what
`generate_text` yields when `_call_ollama_api_sync` swallows an HTTP
failure), a pending record is still marked `enriched` with both summaries
NULL, while its content stays non-empty: the summaries conjunct of the
claimed invariant is the one that fails, the content conjunct holds. -/
theorem C1_counterexample :
    EnrichedInv [sampleRec] ∧
    ((enrichBatch [] llmAlwaysNone [sampleRec] ["d1"]).1.map (fun r =>
      (r.status_enrichment, r.summary1_llm, r.summary2_llm, r.full_text_content))) =
      [("enriched", none, none, some "texto da peticao")] ∧
    ¬ EnrichedInv (enrichBatch [] llmAlwaysNone [sampleRec] ["d1"]).1 ∧
    ContentInv (enrichBatch [] llmAlwaysNone [sampleRec] ["d1"]).1 := by
  exact ⟨by decide, by decide, by decide, by decide⟩

/-- C1 (amended): after any run — the generation oracle unconstrained, so
including runs whose calls fail by returning no text — every `enriched`
record still has non-empty `full_text_content`; both derived summaries
are non-null provided every generation call of the run returned text (and
no stored content is whitespace-only, in which case the calls are skipped
and the record is enriched with NULL summaries).  When a call fails by
returning no text the record is still marked `enriched`, with that
summary NULL (see the counterexample).  `KeysNodup` is the `document_id`
PRIMARY KEY constraint of the schema. -/
theorem C1_enriched_invariant (g : Glossary) (llm : LLMOracle) (store : Store)
    (ids : List String) (hkeys : KeysNodup store) :
    (ContentInv store → ContentInv (enrichBatch g llm store ids).1) ∧
    (ContentNotWhitespace store → EnrichedInv store →
      (∀ p, ∃ s, llm p = .ret (some s)) →
      EnrichedInv (enrichBatch g llm store ids).1) :=
  ⟨fun hci => enrichBatch_preserves_content g llm ids store hkeys hci,
   fun hcw hinv hllm =>
     enrichBatch_preserves_enrichedInv g llm store ids hkeys hcw hinv hllm⟩

/-- C1 (witness): the content half holds on a concrete run whose calls
all fail by returning no text; the summaries half holds on the same store
with an always-text oracle. -/
theorem C1_witness :
    ContentInv (enrichBatch [] llmAlwaysNone [sampleRec] ["d1"]).1 ∧
    EnrichedInv (enrichBatch [] llmAlwaysText [sampleRec] ["d1"]).1 := by
  constructor
  · exact (C1_enriched_invariant [] llmAlwaysNone [sampleRec] ["d1"] (by decide)).1
      (by decide)
  · exact (C1_enriched_invariant [] llmAlwaysText [sampleRec] ["d1"] (by decide)).2
      (by decide) (by decide) (fun p => ⟨"resumo gerado", rfl⟩)

end BM25
